import Mathlib

/-!
# did-algo: agent RPC dispatch layer and the `wallet watch` client loop

A shallow embedding of `agent/rpc.go` (the gRPC wrapper `rpcHandler` around the
method handler) and of `client/cli/cmd/wallet_watch.go` (`runWalletWatchCmd`
with its two background listeners).

Conventions of the embedding:

* a Go `error` is `Option GoError` (`none` is `nil`);
* a Go pointer that may be `nil` is an `Option`;
* the underlying `*Handler`, which lives outside these two files, is a record of
  state transformers over an abstract handler state `σ`;
* observable effects (span start/end, handler calls, `json.Marshal` calls,
  `stream.Send` calls) are recorded, in program order, in a trace of `Event`s;
* a call either returns or panics (`Exit`); deferred calls run in both cases.
-/

namespace DidAlgo

/-! ## Errors and gRPC status -/

/-- A Go `error` value: a plain error, a gRPC status error, or an error built by
`fmt.Errorf` with the `%w` verb (its message and the error it wraps). -/
inductive GoError where
  | plain (msg : String)
  | status (code : Nat) (desc : String)
  | wrapped (msg : String) (inner : GoError)
deriving DecidableEq, Repr

/-- The gRPC code `codes.OK`. -/
def codes.OK : Nat := 0

/-- The gRPC code `codes.InvalidArgument`. -/
def codes.InvalidArgument : Nat := 3

/-- The gRPC code `codes.NotFound`. -/
def codes.NotFound : Nat := 5

/-- The name of a gRPC code, `codes.Code.String`. -/
def codes.String (c : Nat) : String :=
  match c with
  | 0 => "OK"
  | 1 => "Canceled"
  | 2 => "Unknown"
  | 3 => "InvalidArgument"
  | 4 => "DeadlineExceeded"
  | 5 => "NotFound"
  | 6 => "AlreadyExists"
  | 7 => "PermissionDenied"
  | 8 => "ResourceExhausted"
  | 9 => "FailedPrecondition"
  | 10 => "Aborted"
  | 11 => "OutOfRange"
  | 12 => "Unimplemented"
  | 13 => "Internal"
  | 14 => "Unavailable"
  | 15 => "DataLoss"
  | 16 => "Unauthenticated"
  | n => "Code(" ++ toString n ++ ")"

/-- The message of an error, `err.Error()`. -/
def GoError.Error : GoError → String
  | .plain msg => msg
  | .status code desc => "rpc error: code = " ++ codes.String code ++ " desc = " ++ desc
  | .wrapped msg _ => msg

/-- The call `status.Error(c, msg)`: `nil` for `codes.OK`, otherwise a status
error with that code and message. -/
def status.Error (c : Nat) (msg : String) : Option GoError :=
  if c = codes.OK then none else some (.status c msg)

/-! ## Effects -/

/-- Observable actions of a call, in program order. `Value` is the type of the
values handed to `json.Marshal` and `stream.Send`. -/
inductive Event (Value : Type) where
  | spanStart (name : String)
  | spanEnd (err : Option GoError)
  | call (method : String)
  | marshal (v : Value)
  | send (record : Value)
deriving DecidableEq, Repr

/-- How a call leaves its function: by returning a value or by a run-time panic
(a nil pointer dereference here). -/
inductive Exit (α : Type) where
  | returned (a : α)
  | panicked
deriving DecidableEq, Repr

/-- The complete outcome of one call: how it exits, the handler state it leaves
behind and the trace of its observable actions. -/
structure Run (σ Value α : Type) where
  exit : Exit α
  state : σ
  trace : List (Event Value)
deriving DecidableEq, Repr

/-- The errors passed to `sp.End`, one entry per invocation, in order. -/
def spanEnds {Value : Type} : List (Event Value) → List (Option GoError)
  | [] => []
  | .spanEnd e :: rest => e :: spanEnds rest
  | _ :: rest => spanEnds rest

/-- The span names passed to `otelApi.Start`, one entry per invocation. -/
def spanStarts {Value : Type} : List (Event Value) → List String
  | [] => []
  | .spanStart n :: rest => n :: spanStarts rest
  | _ :: rest => spanStarts rest

/-- The records passed to `stream.Send`, one entry per invocation, in order. -/
def sends {Value : Type} : List (Event Value) → List Value
  | [] => []
  | .send r :: rest => r :: sends rest
  | _ :: rest => sends rest

/-- The values passed to `json.Marshal`, one entry per invocation, in order. -/
def marshals {Value : Type} : List (Event Value) → List Value
  | [] => []
  | .marshal v :: rest => v :: marshals rest
  | _ :: rest => marshals rest

/-- The handler methods invoked, one entry per invocation, in order. -/
def calls {Value : Type} : List (Event Value) → List String
  | [] => []
  | .call m :: rest => m :: calls rest
  | _ :: rest => calls rest

/-! ## The underlying handler and the wire types -/

/-- The message `protoV1.ProcessResponse`. -/
structure ProcessResponse where
  Identifier : String
  Ok : Bool
deriving DecidableEq, Repr

/-- The message `protoV1.QueryResponse`; the three fields are byte strings. -/
structure QueryResponse where
  Document : String
  DocumentMetadata : String
  Proof : String
deriving DecidableEq, Repr

/-- The method handler behind `rpcHandler` (the field `handler *Handler`),
together with the two accessors of a DID identifier and `json.Marshal`.  Every
handler method maps the handler state before the call to its Go results and the
state after the call.  `Req` stands for the request messages, `Res` for the
response messages of the pass-through operations, and the monitor channel
returned by `AccountActivity` is the finite sequence of records it delivers
before it is closed. -/
structure Handler (σ Req Res Identifier Value : Type) where
  Process : σ → Req → (String × Option GoError) × σ
  Retrieve : σ → Req → (Identifier × Value × Option GoError) × σ
  TxParameters : σ → (Res × Option GoError) × σ
  TxSubmit : σ → Req → (Res × Option GoError) × σ
  AccountInformation : σ → Req → (Res × Option GoError) × σ
  AccountActivity : σ → Req → (List Value × Option GoError) × σ
  Document : Identifier → Bool → Value
  GetMetadata : Identifier → Value
  jsonMarshal : Value → String × Option GoError

/-- The caller's stream, `protoV1.AgentAPI_AccountActivityServer`: the result of
`stream.Send(record)` given the records already sent on this stream. -/
abbrev SendFn (Value : Type) := List Value → Value → Option GoError

/-! ## `rpcHandler` -/

namespace rpcHandler

variable {σ Req Res Identifier Value : Type}

/-- The body of `rpcHandler.Process`, started with the named result `res`
holding `res0`.  The right-hand side `rh.handler.Process(req)` is evaluated
first; the assignment to `res.Identifier` then dereferences `res`. -/
def ProcessBody (h : Handler σ Req Res Identifier Value) (res0 : Option ProcessResponse)
    (s : σ) (req : Req) : Run σ Value (Option ProcessResponse × Option GoError) :=
  let out := h.Process s req
  match res0 with
  | none =>
    -- nil pointer dereference; the deferred `sp.End(nil)` runs while unwinding
    { exit := .panicked
      state := out.2
      trace := [.spanStart "Process", .call "Process", .spanEnd none] }
  | some r =>
    let r1 : ProcessResponse := { r with Identifier := out.1.1 }
    let r2 : ProcessResponse := { r1 with Ok := out.1.2.isNone }
    match out.1.2 with
    | some e =>
      { exit := .returned (some r2, status.Error codes.InvalidArgument e.Error)
        state := out.2
        trace := [.spanStart "Process", .call "Process", .spanEnd (some e), .spanEnd none] }
    | none =>
      { exit := .returned (some r2, none)
        state := out.2
        trace := [.spanStart "Process", .call "Process", .spanEnd none] }

/-- The operation `rpcHandler.Process`: the named result `res` is a pointer and
starts as `nil`; nothing allocates it. -/
def Process (h : Handler σ Req Res Identifier Value) (s : σ) (req : Req) :
    Run σ Value (Option ProcessResponse × Option GoError) :=
  ProcessBody h none s req

/-- The body of `rpcHandler.Query`, started with the named result `res` holding
`res0`.  On the success path `json.Marshal(proof)` is evaluated and the
assignment to `res.Proof` then dereferences `res`. -/
def QueryBody (h : Handler σ Req Res Identifier Value) (res0 : Option QueryResponse)
    (s : σ) (req : Req) : Run σ Value (Option QueryResponse × Option GoError) :=
  let out := h.Retrieve s req
  let id := out.1.1
  let proof := out.1.2.1
  match out.1.2.2 with
  | some e =>
    { exit := .returned (res0, status.Error codes.NotFound e.Error)
      state := out.2
      trace := [.spanStart "Query", .call "Retrieve", .spanEnd (some e), .spanEnd none] }
  | none =>
    match res0 with
    | none =>
      -- nil pointer dereference; the deferred `sp.End(nil)` runs while unwinding
      { exit := .panicked
        state := out.2
        trace := [.spanStart "Query", .call "Retrieve", .marshal proof, .spanEnd none] }
    | some r =>
      let r1 : QueryResponse := { r with Proof := (h.jsonMarshal proof).1 }
      let r2 : QueryResponse := { r1 with Document := (h.jsonMarshal (h.Document id true)).1 }
      let r3 : QueryResponse :=
        { r2 with DocumentMetadata := (h.jsonMarshal (h.GetMetadata id)).1 }
      { exit := .returned (some r3, none)
        state := out.2
        trace := [.spanStart "Query", .call "Retrieve", .marshal proof,
                  .marshal (h.Document id true), .marshal (h.GetMetadata id), .spanEnd none] }

/-- The operation `rpcHandler.Query`: the named result `res` starts as `nil`. -/
def Query (h : Handler σ Req Res Identifier Value) (s : σ) (req : Req) :
    Run σ Value (Option QueryResponse × Option GoError) :=
  QueryBody h none s req

/-- The operation `rpcHandler.TxParameters`. -/
def TxParameters (h : Handler σ Req Res Identifier Value) (s : σ) :
    Run σ Value (Res × Option GoError) :=
  let out := h.TxParameters s
  { exit := .returned (out.1.1, out.1.2)
    state := out.2
    trace := [.spanStart "TxParameters", .call "TxParameters", .spanEnd out.1.2] }

/-- The operation `rpcHandler.TxSubmit`. -/
def TxSubmit (h : Handler σ Req Res Identifier Value) (s : σ) (req : Req) :
    Run σ Value (Res × Option GoError) :=
  let out := h.TxSubmit s req
  { exit := .returned (out.1.1, out.1.2)
    state := out.2
    trace := [.spanStart "TxSubmit", .call "TxSubmit", .spanEnd out.1.2] }

/-- The operation `rpcHandler.AccountInformation`. -/
def AccountInformation (h : Handler σ Req Res Identifier Value) (s : σ) (req : Req) :
    Run σ Value (Res × Option GoError) :=
  let out := h.AccountInformation s req
  { exit := .returned (out.1.1, out.1.2)
    state := out.2
    trace := [.spanStart "AccountInformation", .call "AccountInformation", .spanEnd out.1.2] }

/-- The loop `for record := range monitor` of `rpcHandler.AccountActivity`:
`sent` are the records already sent, the list is what the channel still
delivers before it closes.  The result is the error the loop returns with
(`none` when the channel closes) and the trace of the loop. -/
def streamLoop (send : SendFn Value) (sent : List Value) :
    List Value → Option GoError × List (Event Value)
  | [] => (none, [])
  | record :: rest =>
    match send sent record with
    | some e => (some e, [.send record, .spanEnd (some e)])
    | none =>
      let r := streamLoop send (sent ++ [record]) rest
      (r.1, .send record :: r.2)

/-- The operation `rpcHandler.AccountActivity`. -/
def AccountActivity (h : Handler σ Req Res Identifier Value) (send : SendFn Value)
    (s : σ) (req : Req) : Run σ Value (Option GoError) :=
  let out := h.AccountActivity s req
  match out.1.2 with
  | some e =>
    { exit := .returned (some e)
      state := out.2
      trace := [.spanStart "AccountActivity", .call "AccountActivity",
                .spanEnd (some e), .spanEnd none] }
  | none =>
    let r := streamLoop send [] out.1.1
    { exit := .returned r.1
      state := out.2
      trace := [.spanStart "AccountActivity", .call "AccountActivity"] ++ r.2 ++ [.spanEnd none] }

end rpcHandler

/-! ## `fmt.Scanln` with one `*string` operand

The stop listener reads standard input with `fmt.Scanln(&signal)`.  The model
follows `fmt`'s scanner on the runes still unread: skip leading blanks (a
newline there is an error), read one blank-delimited word and store it in the
operand, then require only blanks up to the newline or the end of input.  The
operand is written as soon as the word is read, before the rest of the line is
checked; when no word is read the operand keeps its value. -/

/-- The newline rune. -/
def newline : Char := Char.ofNat 10

/-- The predicate `isSpace` of package `fmt`: the white-space runes of the
scanner (the newline is one of them). -/
def isSpace (c : Char) : Bool :=
  let n := c.toNat
  (0x0009 ≤ n && n ≤ 0x000d) || n == 0x0020 || n == 0x0085 || n == 0x00a0 || n == 0x1680 ||
    (0x2000 ≤ n && n ≤ 0x200a) || (0x2028 ≤ n && n ≤ 0x2029) || n == 0x202f || n == 0x205f ||
    n == 0x3000

/-- The scanner's `SkipSpace` for `Scanln`: consumes blanks; a newline is
consumed and reported as the error `unexpected newline`; the first rune that is
not a blank is left unread. -/
def skipSpace : List Char → Option GoError × List Char
  | [] => (none, [])
  | c :: cs =>
    if c = newline then (some (.plain "unexpected newline"), cs)
    else if isSpace c then skipSpace cs
    else (none, c :: cs)

/-- The scanner's `token(true, notSpace)` after blanks were skipped: the longest
run of runes that are not white space, and the unread input behind it. -/
def token : List Char → List Char × List Char
  | [] => ([], [])
  | c :: cs =>
    if isSpace c then ([], c :: cs)
    else
      let r := token cs
      (c :: r.1, r.2)

/-- The end-of-line check of `doScan` for `Scanln`: consumes blanks up to and
including the newline (or up to the end of input); a rune that is not a blank is
consumed and reported as the error `expected newline`. -/
def checkNewline : List Char → Option GoError × List Char
  | [] => (none, [])
  | c :: cs =>
    if c = newline then (none, cs)
    else if isSpace c then checkNewline cs
    else (some (.plain "expected newline"), cs)

/-- The result of one `fmt.Scanln(&signal)`: the operand after the call, the
two Go results `n` and `err`, and the input left unread. -/
structure ScanResult where
  value : String
  n : Nat
  err : Option GoError
  rest : List Char
deriving DecidableEq, Repr

/-- The call `fmt.Scanln(&signal)` on the unread input, `signal` being the
operand's value before the call.  At the end of input the error is `io.EOF`. -/
def Scanln (signal : String) (input : List Char) : ScanResult :=
  match skipSpace input with
  | (some e, rest) => { value := signal, n := 0, err := some e, rest := rest }
  | (none, []) => { value := signal, n := 0, err := some (.plain "EOF"), rest := [] }
  | (none, c :: cs) =>
    let tok := token (c :: cs)
    let chk := checkNewline tok.2
    { value := String.mk tok.1, n := 1, err := chk.1, rest := chk.2 }

/-! ## `runWalletWatchCmd` -/

/-- The outcome of the stop listener: it sent on `input` and closed it during
its `reads`-th `Scanln`, leaving `rest` unread, or it is still looping. -/
inductive StopRun where
  | signalled (reads : Nat) (rest : List Char)
  | waiting
deriving DecidableEq, Repr

/-- The number of the `Scanln` call upon which the stop listener signalled. -/
def StopRun.reads : StopRun → Option Nat
  | .signalled reads _ => some reads
  | .waiting => none

/-- The stop listener of `runWalletWatchCmd` (the first goroutine): `signal` is
declared once, outside the loop; each iteration calls `fmt.Scanln(&signal)`,
drops both results, and signals when `signal == "q"`.  `fuel` bounds the number
of iterations observed and `done` counts those already made. -/
def stopListenerFrom (done : Nat) : Nat → String → List Char → StopRun
  | 0, _, _ => .waiting
  | fuel + 1, signal, input =>
    let r := Scanln signal input
    if r.value = "q" then .signalled (done + 1) r.rest
    else stopListenerFrom (done + 1) fuel r.value r.rest

/-- The stop listener started on the standard input `input`: `signal` is the
empty string at first. -/
def stopListener (fuel : Nat) (input : List Char) : StopRun :=
  stopListenerFrom 0 fuel "" input

/-- The outcome of the stream listener: the lines written to standard output,
the number of `monitor.Recv()` calls made, and whether the goroutine returned
(otherwise it is blocked in a `Recv` whose outcome is not yet known). -/
structure ListenerRun where
  output : List String
  recvs : Nat
  returned : Bool
deriving DecidableEq, Repr

/-- The stream listener of `runWalletWatchCmd` (the second goroutine) on the
successive outcomes `(record, err)` of `monitor.Recv()`: on an error it
returns; otherwise it prints `json.Marshal(record)` followed by a newline. -/
def streamListener {Value : Type} (jsonMarshal : Value → String × Option GoError) :
    List (Value × Option GoError) → ListenerRun
  | [] => { output := [], recvs := 0, returned := false }
  | (record, err) :: rest =>
    match err with
    | some _ => { output := [], recvs := 1, returned := true }
    | none =>
      let r := streamListener jsonMarshal rest
      { output := ((jsonMarshal record).1 ++ "\n") :: r.output
        recvs := r.recvs + 1
        returned := r.returned }

/-- The error `context.Canceled`. -/
def context.Canceled : GoError := .plain "context canceled"

/-- The shared context created by `context.WithCancel`: the error `ctx.Err()`
(`nil` until the context is cancelled) and the number of times its `Done`
channel has been closed. -/
structure CancelCtx where
  err : Option GoError
  doneClosed : Nat
deriving DecidableEq, Repr

/-- The context returned by `context.WithCancel(context.Background())`: not
cancelled, `Done` channel open. -/
def context.WithCancel : CancelCtx :=
  { err := none, doneClosed := 0 }

/-- The cancel function `halt` of the shared context: the first call records
`context.Canceled` and closes the `Done` channel; on a context that is already
cancelled the call returns at once. -/
def halt (c : CancelCtx) : CancelCtx :=
  match c.err with
  | some _ => c
  | none => { err := some context.Canceled, doneClosed := c.doneClosed + 1 }

/-- The two cases of the `select` in the controller loop. -/
inductive Branch where
  | ctxDone
  | input
deriving DecidableEq, Repr

/-- What the `select` of the controller loop finds at one moment: whether
`monitor.Context().Done()` is closed, whether a receive from `input` can
proceed, and the case the run time picks when both can. -/
structure Ready where
  ctxDone : Bool
  input : Bool
  pick : Branch
deriving DecidableEq, Repr

/-- The `select` statement of the controller loop: the case that proceeds, or
`none` while it blocks. -/
def selectCase (r : Ready) : Option Branch :=
  match r.ctxDone, r.input with
  | true, true => some r.pick
  | true, false => some .ctxDone
  | false, true => some .input
  | false, false => none

/-- Actions of `runWalletWatchCmd` on its collaborators, in program order;
`selected` is the receive of the `select` case that proceeded. -/
inductive ClientEvent where
  | log (msg : String)
  | selected (taken : Branch)
  | haltCalled
  | connClose
  | spawnStopListener
  | spawnStreamListener
deriving DecidableEq, Repr

/-- The outcome of `runWalletWatchCmd`: the returned error (`none` while the
controller loop is still blocked in `select`), the state of the shared context
and the actions performed. -/
structure WatchRun where
  result : Option (Option GoError)
  ctx : CancelCtx
  events : List ClientEvent
deriving DecidableEq, Repr

/-- The controller loop of `runWalletWatchCmd` with the deferred calls that run
when it returns: `started` are the actions performed before the loop, `c` is the
shared context and the list gives what `select` finds at successive moments.
While no case can proceed the loop stays blocked; in the case that proceeds
`halt()` is called and `nil` returned, after which the deferred calls run:
the log line, `halt()` once more, and the closing of the connection. -/
def controller (started : List ClientEvent) (c : CancelCtx) : List Ready → WatchRun
  | [] => { result := none, ctx := c, events := started }
  | r :: rest =>
    match selectCase r with
    | none => controller started c rest
    | some .ctxDone =>
      { result := some none
        ctx := halt (halt c)
        events := started ++ [.selected .ctxDone, .haltCalled, .log "monitor closed",
                              .haltCalled, .connClose] }
    | some .input =>
      { result := some none
        ctx := halt (halt c)
        events := started ++ [.selected .input, .haltCalled, .log "monitor closed",
                              .haltCalled, .connClose] }

/-- The collaborators of `runWalletWatchCmd`: the results of reading and
validating the client settings, of opening the connection and of opening the
streaming call. -/
structure ClientEnv where
  unmarshalKey : Option GoError
  validate : Option GoError
  getClientConnection : Option GoError
  openMonitor : Option GoError
deriving DecidableEq, Repr

/-- The command `runWalletWatchCmd`. -/
def runWalletWatchCmd (env : ClientEnv) (args : List String) (sched : List Ready) : WatchRun :=
  let c0 : CancelCtx := context.WithCancel
  if args.length ≠ 1 then
    { result := some (some (.plain "you must specify and address to monitor"))
      ctx := c0, events := [] }
  else
    match env.unmarshalKey with
    | some e => { result := some (some e), ctx := c0, events := [] }
    | none =>
      match env.validate with
      | some e => { result := some (some e), ctx := c0, events := [] }
      | none =>
        match env.getClientConnection with
        | some e =>
          { result := some (some (.wrapped ("failed to establish connection: " ++ e.Error) e))
            ctx := c0, events := [] }
        | none =>
          match env.openMonitor with
          | some e =>
            { result := some (some (.wrapped ("failed to open account monitor: " ++ e.Error) e))
              ctx := halt c0
              events := [.log "starting monitor (press 'q + Enter' to exit)...", .haltCalled,
                         .connClose] }
          | none =>
            controller [.log "starting monitor (press 'q + Enter' to exit)...",
                        .spawnStopListener, .spawnStreamListener] c0 sched

/-- Standard input made of the given lines, each ended by a newline. -/
def stdinOf : List (List Char) → List Char
  | [] => []
  | l :: ls => l ++ newline :: stdinOf ls

/-- The first word of a line: what follows its leading blanks, up to the next
blank. -/
def firstWord (line : List Char) : List Char :=
  (line.dropWhile isSpace).takeWhile (fun c => !isSpace c)

/-- What is left of a line behind its first word and the blanks that follow
the word: empty, or starting with the first rune of the second word. -/
def afterFirstWord (line : List Char) : List Char :=
  ((line.dropWhile isSpace).dropWhile (fun c => !isSpace c)).dropWhile isSpace

/-- The words stored by the successive `Scanln` calls that read one line, as
the line itself tells: a blank line takes one call that stores nothing; a line
of one word takes one call that stores the word; on a line of several words the
call stores the first word and loses the first rune of the second word, and the
next call goes on with what is left of the line.  The first argument bounds the
number of calls and is taken larger than the length of the line. -/
def lineScansAux : Nat → List Char → List (Option (List Char))
  | 0, _ => []
  | n + 1, line =>
    if firstWord line = [] then [none]
    else
      match afterFirstWord line with
      | [] => [some (firstWord line)]
      | _ :: left => some (firstWord line) :: lineScansAux n left

/-- The words stored by the successive `Scanln` calls that read one line. -/
def lineScans (line : List Char) : List (Option (List Char)) :=
  lineScansAux (line.length + 1) line

/-- The words stored by the successive `Scanln` calls that read the given
lines. -/
def scansOf : List (List Char) → List (Option (List Char))
  | [] => []
  | l :: ls => lineScans l ++ scansOf ls

/-- The number of the first call, counted from `done + 1`, that stores the
word `q`. -/
def firstQ (done : Nat) : List (Option (List Char)) → Option Nat
  | [] => none
  | o :: os => if o = some ['q'] then some (done + 1) else firstQ (done + 1) os

/-- Whether a list of runes is one line: it holds no newline. -/
def isLine (line : List Char) : Bool :=
  line.all (fun c => c != newline)

/-! ## Sample collaborators -/

/-- A sample handler over a call counter: its operations fail exactly when
`fail` is set; the monitor channel delivers the records `A` and `B`. -/
def sampleHandler (fail : Bool) : Handler Nat String String String String where
  Process s req := (("did:algo:" ++ req, if fail then some (.plain "invalid request") else none), s + 1)
  Retrieve s req := ((req, "proof", if fail then some (.plain "no such identifier") else none), s + 1)
  TxParameters s := (("params", if fail then some (.plain "node unreachable") else none), s + 1)
  TxSubmit s req := (("tx:" ++ req, if fail then some (.plain "rejected") else none), s + 1)
  AccountInformation s req :=
    (("info:" ++ req, if fail then some (.plain "unknown account") else none), s + 1)
  AccountActivity s _ :=
    ((["A", "B"], if fail then some (.plain "invalid address") else none), s + 1)
  Document id _ := "doc:" ++ id
  GetMetadata id := "meta:" ++ id
  jsonMarshal v := ("<" ++ v ++ ">", none)

/-- A caller stream on which every `Send` succeeds. -/
def sendOk : SendFn String :=
  fun _ _ => none

/-- A caller stream that is gone once one record has been sent. -/
def sendOnce : SendFn String :=
  fun sent _ => if sent.length < 1 then none else some (.plain "transport is closing")

/-! ## Properties of the stream bridge -/

section Bridge

variable {σ Req Res Identifier Value : Type}

/-- The `Send` calls of a run of send events followed by a tail. -/
theorem sends_map_send (rs : List Value) (tail : List (Event Value)) :
    sends (rs.map Event.send ++ tail) = rs ++ sends tail := by
  induction rs with
  | nil => rfl
  | cons r rs ih => simp [sends, ih]

/-- Send events end no span. -/
theorem spanEnds_map_send (rs : List Value) (tail : List (Event Value)) :
    spanEnds (rs.map Event.send ++ tail) = spanEnds tail := by
  induction rs with
  | nil => rfl
  | cons r rs ih => simpa [spanEnds] using ih

/-- The loop forwards every record when each `Send` succeeds in its turn. -/
theorem streamLoop_all_ok (send : SendFn Value) (rs sent : List Value)
    (hsend : ∀ i (hi : i < rs.length), send (sent ++ rs.take i) rs[i] = none) :
    rpcHandler.streamLoop send sent rs = (none, rs.map Event.send) := by
  induction rs generalizing sent with
  | nil => rfl
  | cons r rs ih =>
    have h0 : send sent r = none := by simpa using hsend 0 (by simp)
    have hrest : ∀ i (hi : i < rs.length), send ((sent ++ [r]) ++ rs.take i) rs[i] = none := by
      intro i hi
      simpa using hsend (i + 1) (by simpa using hi)
    simp [rpcHandler.streamLoop, h0, ih (sent ++ [r]) hrest]

/-- The loop stops at the first failing `Send`. -/
theorem streamLoop_fail_at (send : SendFn Value) (front : List Value) (rk : Value)
    (back sent : List Value) (e : GoError)
    (hok : ∀ i (hi : i < front.length), send (sent ++ front.take i) front[i] = none)
    (hfail : send (sent ++ front) rk = some e) :
    rpcHandler.streamLoop send sent (front ++ rk :: back) =
      (some e, front.map Event.send ++ [.send rk, .spanEnd (some e)]) := by
  induction front generalizing sent with
  | nil =>
    have h0 : send sent rk = some e := by simpa using hfail
    simp [rpcHandler.streamLoop, h0]
  | cons r rs ih =>
    have h0 : send sent r = none := by simpa using hok 0 (by simp)
    have hrest : ∀ i (hi : i < rs.length), send ((sent ++ [r]) ++ rs.take i) rs[i] = none := by
      intro i hi
      simpa using hok (i + 1) (by simpa using hi)
    have hf : send ((sent ++ [r]) ++ rs) rk = some e := by simpa using hfail
    simp [rpcHandler.streamLoop, h0, ih (sent ++ [r]) hrest hf]

/-- The span ends recorded by the loop: none when it runs to the close of the
channel, one (with the error) when a `Send` fails. -/
theorem streamLoop_spanEnds (send : SendFn Value) (rs sent : List Value) :
    spanEnds (rpcHandler.streamLoop send sent rs).2 =
      match (rpcHandler.streamLoop send sent rs).1 with
      | none => []
      | some e => [some e] := by
  induction rs generalizing sent with
  | nil => rfl
  | cons r rs ih =>
    unfold rpcHandler.streamLoop
    cases hs : send sent r with
    | some e => simp [spanEnds]
    | none => simpa [spanEnds] using ih (sent ++ [r])

/-- The loop starts no span. -/
theorem streamLoop_spanStarts (send : SendFn Value) (rs sent : List Value) :
    spanStarts (rpcHandler.streamLoop send sent rs).2 = [] := by
  induction rs generalizing sent with
  | nil => rfl
  | cons r rs ih =>
    unfold rpcHandler.streamLoop
    cases hs : send sent r with
    | some e => simp [spanStarts]
    | none => simpa [spanStarts] using ih (sent ++ [r])

/-- The span ends of two traces in sequence. -/
theorem spanEnds_append (xs ys : List (Event Value)) :
    spanEnds (xs ++ ys) = spanEnds xs ++ spanEnds ys := by
  induction xs with
  | nil => rfl
  | cons x xs ih => cases x <;> simp [spanEnds, ih]

/-- The span starts of two traces in sequence. -/
theorem spanStarts_append (xs ys : List (Event Value)) :
    spanStarts (xs ++ ys) = spanStarts xs ++ spanStarts ys := by
  induction xs with
  | nil => rfl
  | cons x xs ih => cases x <;> simp [spanStarts, ih]

/-- C1: when the monitor channel delivers `rs` and then closes, and `Send`
succeeds on every record in its turn, `rpcHandler.AccountActivity` calls
`stream.Send` exactly on `rs`, in that order, and returns `nil`. -/
theorem AccountActivity_forwards_every_record (h : Handler σ Req Res Identifier Value)
    (send : SendFn Value) (s : σ) (req : Req) (rs : List Value)
    (hopen : (h.AccountActivity s req).1 = (rs, none))
    (hsend : ∀ i (hi : i < rs.length), send (rs.take i) rs[i] = none) :
    (rpcHandler.AccountActivity h send s req).exit = .returned none ∧
      sends (rpcHandler.AccountActivity h send s req).trace = rs := by
  have h1 : (h.AccountActivity s req).1.1 = rs := by rw [hopen]
  have h2 : (h.AccountActivity s req).1.2 = none := by rw [hopen]
  have hl := streamLoop_all_ok send rs [] (by simpa using hsend)
  unfold rpcHandler.AccountActivity
  simp only [h2, h1, hl]
  refine ⟨trivial, ?_⟩
  have := sends_map_send rs [Event.spanEnd none]
  simpa [sends] using this

/-- An instance: the records `A` and `B` on a stream that accepts every record. -/
theorem AccountActivity_forwards_every_record_witness :
    (rpcHandler.AccountActivity (sampleHandler false) sendOk 0 "ADDR1").exit = .returned none ∧
      sends (rpcHandler.AccountActivity (sampleHandler false) sendOk 0 "ADDR1").trace =
        ["A", "B"] :=
  AccountActivity_forwards_every_record (sampleHandler false) sendOk 0 "ADDR1" ["A", "B"] rfl
    (fun _ _ => rfl)

/-- C2: when the monitor channel delivers `front ++ rk :: back`, `Send` succeeds
on the records of `front` and fails on `rk` with error `e`,
`rpcHandler.AccountActivity` returns exactly `e` and has called `stream.Send` on
`front ++ [rk]` only: no record of `back` is sent. -/
theorem AccountActivity_stops_at_failed_send (h : Handler σ Req Res Identifier Value)
    (send : SendFn Value) (s : σ) (req : Req) (front : List Value) (rk : Value)
    (back : List Value) (e : GoError)
    (hopen : (h.AccountActivity s req).1 = (front ++ rk :: back, none))
    (hok : ∀ i (hi : i < front.length), send (front.take i) front[i] = none)
    (hfail : send front rk = some e) :
    (rpcHandler.AccountActivity h send s req).exit = .returned (some e) ∧
      sends (rpcHandler.AccountActivity h send s req).trace = front ++ [rk] := by
  have h1 : (h.AccountActivity s req).1.1 = front ++ rk :: back := by rw [hopen]
  have h2 : (h.AccountActivity s req).1.2 = none := by rw [hopen]
  have hl := streamLoop_fail_at send front rk back [] e (by simpa using hok) (by simpa using hfail)
  unfold rpcHandler.AccountActivity
  simp only [h2, h1, hl]
  refine ⟨trivial, ?_⟩
  have := sends_map_send front [Event.send rk, Event.spanEnd (some e), Event.spanEnd none]
  simpa [sends] using this

/-- An instance: the records `A` and `B` on a stream that is gone after one record. -/
theorem AccountActivity_stops_at_failed_send_witness :
    (rpcHandler.AccountActivity (sampleHandler false) sendOnce 0 "ADDR1").exit =
        .returned (some (.plain "transport is closing")) ∧
      sends (rpcHandler.AccountActivity (sampleHandler false) sendOnce 0 "ADDR1").trace =
        ["A"] ++ ["B"] :=
  AccountActivity_stops_at_failed_send (sampleHandler false) sendOnce 0 "ADDR1" ["A"] "B" []
    (.plain "transport is closing") rfl (by decide) rfl

end Bridge

/-! ## Properties of the dispatch layer -/

section Dispatch

variable {σ Req Res Identifier Value : Type}

/-- With the named result never allocated, `rpcHandler.Process` panics on every
request, after the handler has run. -/
theorem Process_panics (h : Handler σ Req Res Identifier Value) (s : σ) (req : Req) :
    rpcHandler.Process h s req =
      { exit := .panicked
        state := (h.Process s req).2
        trace := [.spanStart "Process", .call "Process", .spanEnd none] } :=
  rfl

/-- Started with an allocated response, the body of `rpcHandler.Process` returns
the handler's identifier, the flag `err == nil`, and `nil` or an
`InvalidArgument` status error carrying the handler error's message. -/
theorem ProcessBody_allocated (h : Handler σ Req Res Identifier Value) (r : ProcessResponse)
    (s : σ) (req : Req) :
    (rpcHandler.ProcessBody h (some r) s req).exit =
      .returned (some { Identifier := (h.Process s req).1.1, Ok := (h.Process s req).1.2.isNone },
        match (h.Process s req).1.2 with
        | none => none
        | some e => some (.status codes.InvalidArgument e.Error)) := by
  cases hx : (h.Process s req).1.2 <;>
    simp [rpcHandler.ProcessBody, hx, status.Error, codes.InvalidArgument, codes.OK]

/-- With the named result never allocated, `rpcHandler.Query` panics whenever
`handler.Retrieve` succeeds, after `json.Marshal(proof)` has run. -/
theorem Query_panics_on_success (h : Handler σ Req Res Identifier Value) (s : σ) (req : Req)
    (hret : (h.Retrieve s req).1.2.2 = none) :
    rpcHandler.Query h s req =
      { exit := .panicked
        state := (h.Retrieve s req).2
        trace := [.spanStart "Query", .call "Retrieve", .marshal (h.Retrieve s req).1.2.1,
                  .spanEnd none] } := by
  unfold rpcHandler.Query rpcHandler.QueryBody
  simp only [hret]

/-- Started with an allocated response, the body of `rpcHandler.Query` returns,
when `handler.Retrieve` succeeds, the three JSON encodings and a `nil` error. -/
theorem QueryBody_allocated (h : Handler σ Req Res Identifier Value) (r : QueryResponse)
    (s : σ) (req : Req) (hret : (h.Retrieve s req).1.2.2 = none) :
    (rpcHandler.QueryBody h (some r) s req).exit =
      .returned (some
        { Proof := (h.jsonMarshal (h.Retrieve s req).1.2.1).1
          Document := (h.jsonMarshal (h.Document (h.Retrieve s req).1.1 true)).1
          DocumentMetadata := (h.jsonMarshal (h.GetMetadata (h.Retrieve s req).1.1)).1 },
        none) := by
  unfold rpcHandler.QueryBody
  simp only [hret]

/-- C3, as stated, fails: on the early error return of `rpcHandler.Query` the
span's `End` is invoked twice, first with the error and then, deferred, with
`nil`. -/
theorem Query_error_path_ends_span_twice :
    (rpcHandler.Query (sampleHandler true) 0 "did:algo:unknown").exit =
        .returned (none, some (.status codes.NotFound "no such identifier")) ∧
      spanEnds (rpcHandler.Query (sampleHandler true) 0 "did:algo:unknown").trace =
        [some (.plain "no such identifier"), none] ∧
      (spanEnds (rpcHandler.Query (sampleHandler true) 0 "did:algo:unknown").trace).length ≠ 1 := by
  decide

/-- C3, amended: every call of the traced operations starts its span once.  The
pass-through operations end it exactly once, with the handler's error.
`rpcHandler.AccountActivity` ends it exactly once (with `nil`) when it returns
`nil` and exactly twice when it returns an error `e`: first with `e`, then,
deferred, with `nil`.  `rpcHandler.Query` does the same on its early error
return. -/
theorem span_end_invocations (h : Handler σ Req Res Identifier Value) (send : SendFn Value)
    (s : σ) (req : Req) :
    (spanStarts (rpcHandler.TxParameters h s).trace = ["TxParameters"] ∧
      spanEnds (rpcHandler.TxParameters h s).trace = [(h.TxParameters s).1.2]) ∧
    (spanStarts (rpcHandler.TxSubmit h s req).trace = ["TxSubmit"] ∧
      spanEnds (rpcHandler.TxSubmit h s req).trace = [(h.TxSubmit s req).1.2]) ∧
    (spanStarts (rpcHandler.AccountInformation h s req).trace = ["AccountInformation"] ∧
      spanEnds (rpcHandler.AccountInformation h s req).trace =
        [(h.AccountInformation s req).1.2]) ∧
    (∀ e, (h.Retrieve s req).1.2.2 = some e →
      spanStarts (rpcHandler.Query h s req).trace = ["Query"] ∧
      spanEnds (rpcHandler.Query h s req).trace = [some e, none]) ∧
    (spanStarts (rpcHandler.AccountActivity h send s req).trace = ["AccountActivity"] ∧
      ∃ err, (rpcHandler.AccountActivity h send s req).exit = .returned err ∧
        spanEnds (rpcHandler.AccountActivity h send s req).trace =
          match err with
          | none => [none]
          | some e => [some e, none]) := by
  refine ⟨⟨rfl, rfl⟩, ⟨rfl, rfl⟩, ⟨rfl, rfl⟩, ?_, ?_⟩
  · intro e he
    unfold rpcHandler.Query rpcHandler.QueryBody
    simp only [he]
    exact ⟨rfl, rfl⟩
  · cases hopen : (h.AccountActivity s req).1.2 with
    | some e =>
      simp only [rpcHandler.AccountActivity, hopen]
      exact ⟨rfl, some e, rfl, rfl⟩
    | none =>
      have hs := streamLoop_spanStarts send (h.AccountActivity s req).1.1 []
      have he := streamLoop_spanEnds send (h.AccountActivity s req).1.1 []
      simp only [rpcHandler.AccountActivity, hopen]
      generalize rpcHandler.streamLoop send [] (h.AccountActivity s req).1.1 = lp at hs he ⊢
      obtain ⟨res, tr⟩ := lp
      refine ⟨?_, res, rfl, ?_⟩
      · have hs2 : spanStarts tr = [] := hs
        simp [spanStarts, spanStarts_append, hs2]
      · cases res with
        | none =>
          have he2 : spanEnds tr = [] := he
          simp [spanEnds, spanEnds_append, he2]
        | some e =>
          have he2 : spanEnds tr = [some e] := he
          simp [spanEnds, spanEnds_append, he2]

/-- An instance: a lookup that fails. -/
theorem span_end_invocations_witness :
    ((sampleHandler true).Retrieve 0 "did:algo:unknown").1.2.2 =
        some (.plain "no such identifier") ∧
      spanStarts (rpcHandler.Query (sampleHandler true) 0 "did:algo:unknown").trace = ["Query"] ∧
      spanEnds (rpcHandler.Query (sampleHandler true) 0 "did:algo:unknown").trace =
        [some (.plain "no such identifier"), none] :=
  ⟨rfl, (span_end_invocations (sampleHandler true) sendOk 0 "did:algo:unknown").2.2.2.1
    (.plain "no such identifier") rfl⟩

/-- C4, at a request the handler accepts: `rpcHandler.Process` does not return;
the assignment to the field of the `nil` result panics once the handler has
run, and the deferred `sp.End(nil)` is the only span end. -/
theorem Process_panics_on_accepted_request :
    rpcHandler.Process (sampleHandler false) 0 "create" =
      { exit := .panicked
        state := 1
        trace := [.spanStart "Process", .call "Process", .spanEnd none] } := by
  decide

/-- C5, at a request whose lookup succeeds: `rpcHandler.Query` does not return;
after `json.Marshal(proof)` the assignment to the field of the `nil` result
panics. -/
theorem Query_panics_on_found_identifier :
    rpcHandler.Query (sampleHandler false) 0 "did:algo:known" =
      { exit := .panicked
        state := 1
        trace := [.spanStart "Query", .call "Retrieve", .marshal "proof", .spanEnd none] } := by
  decide

/-- C6: when `handler.Retrieve` fails with `e`, `rpcHandler.Query` returns a
`nil` response together with a status error of code `NotFound` whose message is
`e.Error()`, and `json.Marshal` is never called. -/
theorem Query_not_found (h : Handler σ Req Res Identifier Value) (s : σ) (req : Req)
    (e : GoError) (hret : (h.Retrieve s req).1.2.2 = some e) :
    (rpcHandler.Query h s req).exit = .returned (none, some (.status codes.NotFound e.Error)) ∧
      marshals (rpcHandler.Query h s req).trace = [] := by
  unfold rpcHandler.Query rpcHandler.QueryBody
  simp only [hret]
  exact ⟨rfl, rfl⟩

/-- An instance: a lookup that fails. -/
theorem Query_not_found_witness :
    (rpcHandler.Query (sampleHandler true) 0 "did:algo:unknown").exit =
        .returned (none, some (.status codes.NotFound
          (GoError.plain "no such identifier").Error)) ∧
      marshals (rpcHandler.Query (sampleHandler true) 0 "did:algo:unknown").trace = [] :=
  Query_not_found (sampleHandler true) 0 "did:algo:unknown" (.plain "no such identifier") rfl

/-- C10: `TxParameters`, `TxSubmit` and `AccountInformation` return exactly the
response and the error of the corresponding handler operation, which is invoked
exactly once: the handler state after the call is the state after that one
invocation. -/
theorem pass_through_operations (h : Handler σ Req Res Identifier Value) (s : σ) (req : Req) :
    ((rpcHandler.TxParameters h s).exit = .returned (h.TxParameters s).1 ∧
      (rpcHandler.TxParameters h s).state = (h.TxParameters s).2 ∧
      calls (rpcHandler.TxParameters h s).trace = ["TxParameters"]) ∧
    ((rpcHandler.TxSubmit h s req).exit = .returned (h.TxSubmit s req).1 ∧
      (rpcHandler.TxSubmit h s req).state = (h.TxSubmit s req).2 ∧
      calls (rpcHandler.TxSubmit h s req).trace = ["TxSubmit"]) ∧
    ((rpcHandler.AccountInformation h s req).exit = .returned (h.AccountInformation s req).1 ∧
      (rpcHandler.AccountInformation h s req).state = (h.AccountInformation s req).2 ∧
      calls (rpcHandler.AccountInformation h s req).trace = ["AccountInformation"]) :=
  ⟨⟨rfl, rfl, rfl⟩, ⟨rfl, rfl, rfl⟩, ⟨rfl, rfl, rfl⟩⟩

end Dispatch

/-! ## Properties of the client listeners and the controller loop -/

section Client

/-- C7: on `n` successfully received records followed by a receive failure, the
stream listener writes exactly `n` lines, the `i`-th being the JSON encoding of
the `i`-th record followed by a newline, makes `n + 1` receives (none after the
failing one) and returns. -/
theorem streamListener_prints_until_failure {Value : Type}
    (jsonMarshal : Value → String × Option GoError) (ms : List Value) (last : Value)
    (e : GoError) (later : List (Value × Option GoError)) :
    streamListener jsonMarshal (ms.map (fun m => (m, none)) ++ (last, some e) :: later) =
      { output := ms.map (fun m => (jsonMarshal m).1 ++ "\n")
        recvs := ms.length + 1
        returned := true } := by
  induction ms with
  | nil => rfl
  | cons m ms ih => simp [streamListener, ih]

/-- Cancelling a context that is already cancelled changes nothing. -/
theorem halt_halt (c : CancelCtx) : halt (halt c) = halt c := by
  cases hc : c.err with
  | some e => simp [halt, hc]
  | none => simp [halt, hc]

/-- While `select` finds no case ready the controller loop stays blocked:
nothing is returned, the context is untouched and no action is performed. -/
theorem controller_blocked (started : List ClientEvent) (c : CancelCtx) (blocked : List Ready)
    (hblocked : ∀ p ∈ blocked, selectCase p = none) :
    controller started c blocked = { result := none, ctx := c, events := started } := by
  induction blocked with
  | nil => rfl
  | cons b bs ih =>
    have hb : selectCase b = none := hblocked b (by simp)
    have hbs : ∀ p ∈ bs, selectCase p = none := fun p hp => hblocked p (by simp [hp])
    simp [controller, hb, ih hbs]

/-- The moments at which `select` finds no case ready do not change what the
controller loop does afterwards. -/
theorem controller_skips_blocked (started : List ClientEvent) (c : CancelCtx)
    (blocked rest : List Ready) (hblocked : ∀ p ∈ blocked, selectCase p = none) :
    controller started c (blocked ++ rest) = controller started c rest := by
  induction blocked with
  | nil => rfl
  | cons b bs ih =>
    have hb : selectCase b = none := hblocked b (by simp)
    have hbs : ∀ p ∈ bs, selectCase p = none := fun p hp => hblocked p (by simp [hp])
    simp [controller, hb, ih hbs]

/-- C9: once the streaming call is open, `runWalletWatchCmd` stays blocked, with
the shared context not cancelled and `halt` not called, for as long as `select`
finds neither the stream's context done nor the stop signal pending.  At the
first moment at which it finds one of them (either one alone suffices; the case
taken is the one that is ready) it calls `halt` and returns `nil`.  The first
`halt` cancels the context and closes its `Done` channel once; the deferred
second `halt` leaves the context as the first one left it, as does any repeated
`halt`. -/
theorem runWalletWatchCmd_returns_on_first_terminal_condition (env : ClientEnv)
    (args : List String) (blocked : List Ready) (r : Ready) (later : List Ready)
    (hargs : args.length = 1) (hconf : env.unmarshalKey = none) (hvalid : env.validate = none)
    (hconn : env.getClientConnection = none) (hopen : env.openMonitor = none)
    (hblocked : ∀ p ∈ blocked, selectCase p = none)
    (hr : r.ctxDone = true ∨ r.input = true) :
    runWalletWatchCmd env args blocked =
        { result := none
          ctx := context.WithCancel
          events := [.log "starting monitor (press 'q + Enter' to exit)...", .spawnStopListener,
                     .spawnStreamListener] } ∧
      (∃ b, selectCase r = some b ∧ (r.input = false → b = .ctxDone) ∧
        (r.ctxDone = false → b = .input) ∧
        runWalletWatchCmd env args (blocked ++ r :: later) =
          { result := some none
            ctx := halt context.WithCancel
            events := [.log "starting monitor (press 'q + Enter' to exit)...",
                       .spawnStopListener, .spawnStreamListener, .selected b, .haltCalled,
                       .log "monitor closed", .haltCalled, .connClose] }) ∧
      halt context.WithCancel = { err := some context.Canceled, doneClosed := 1 } ∧
      (∀ c, halt (halt c) = halt c) := by
  have hrun : ∀ sched, runWalletWatchCmd env args sched =
      controller [.log "starting monitor (press 'q + Enter' to exit)...", .spawnStopListener,
        .spawnStreamListener] context.WithCancel sched := by
    intro sched
    simp [runWalletWatchCmd, hargs, hconf, hvalid, hconn, hopen]
  refine ⟨?_, ?_, rfl, halt_halt⟩
  · rw [hrun, controller_blocked _ _ blocked hblocked]
  · rw [hrun, controller_skips_blocked _ _ blocked (r :: later) hblocked]
    obtain ⟨d, i, p⟩ := r
    cases d <;> cases i
    · simp at hr
    · exact ⟨.input, rfl, by simp, by simp, by simp [controller, selectCase, halt_halt]⟩
    · exact ⟨.ctxDone, rfl, by simp, by simp, by simp [controller, selectCase, halt_halt]⟩
    · cases p
      · exact ⟨.ctxDone, rfl, by simp, by simp, by simp [controller, selectCase, halt_halt]⟩
      · exact ⟨.input, rfl, by simp, by simp, by simp [controller, selectCase, halt_halt]⟩

/-- An instance: nothing is ready at the first moment; at the second the stream
context completes while no stop signal is pending. -/
theorem runWalletWatchCmd_returns_on_first_terminal_condition_witness :
    runWalletWatchCmd ⟨none, none, none, none⟩ ["ADDR1"] [⟨false, false, .input⟩] =
        { result := none
          ctx := context.WithCancel
          events := [.log "starting monitor (press 'q + Enter' to exit)...", .spawnStopListener,
                     .spawnStreamListener] } ∧
      runWalletWatchCmd ⟨none, none, none, none⟩ ["ADDR1"]
          ([⟨false, false, .input⟩] ++ ⟨true, false, .input⟩ :: [⟨false, true, .input⟩]) =
        { result := some none
          ctx := halt context.WithCancel
          events := [.log "starting monitor (press 'q + Enter' to exit)...",
                     .spawnStopListener, .spawnStreamListener, .selected .ctxDone, .haltCalled,
                     .log "monitor closed", .haltCalled, .connClose] } ∧
      halt context.WithCancel = { err := some context.Canceled, doneClosed := 1 } ∧
      halt (halt context.WithCancel) = halt context.WithCancel := by
  obtain ⟨h1, ⟨b, _, hb, _, h2⟩, h3, h4⟩ :=
    runWalletWatchCmd_returns_on_first_terminal_condition ⟨none, none, none, none⟩ ["ADDR1"]
      [⟨false, false, .input⟩] ⟨true, false, .input⟩ [⟨false, true, .input⟩] rfl rfl rfl rfl rfl
      (by decide) (by decide)
  have hc : b = .ctxDone := hb rfl
  subst hc
  exact ⟨h1, h2, h3, h4 context.WithCancel⟩

end Client

/-! ## Properties of `fmt.Scanln` and the stop listener -/

section StopListener

/-- The newline is white space for the scanner. -/
theorem isSpace_newline : isSpace newline = true := by decide

/-- A scanned word equals the string `q` exactly when it is the single rune `q`. -/
theorem mk_eq_q_iff (w : List Char) : String.mk w = "q" ↔ w = ['q'] := by
  constructor
  · intro h
    exact congrArg String.data h
  · intro h
    rw [h]

/-- Every element of `takeWhile p` satisfies `p`. -/
theorem mem_takeWhile_holds (p : Char → Bool) (l : List Char) :
    ∀ c ∈ l.takeWhile p, p c = true := by
  induction l with
  | nil => simp
  | cons a l ih =>
    intro c hc
    by_cases ha : p a = true
    · rw [List.takeWhile_cons_of_pos ha] at hc
      rcases List.mem_cons.mp hc with h | h
      · rw [h]; exact ha
      · exact ih c h
    · rw [List.takeWhile_cons_of_neg ha] at hc
      simp at hc

/-- The elements of `takeWhile p l` are elements of `l`. -/
theorem mem_of_mem_takeWhile (p : Char → Bool) (l : List Char) :
    ∀ c ∈ l.takeWhile p, c ∈ l := by
  induction l with
  | nil => simp
  | cons a l ih =>
    intro c hc
    by_cases ha : p a = true
    · rw [List.takeWhile_cons_of_pos ha] at hc
      rcases List.mem_cons.mp hc with h | h
      · rw [h]; simp
      · exact List.mem_cons_of_mem _ (ih c h)
    · rw [List.takeWhile_cons_of_neg ha] at hc
      simp at hc

/-- The elements of `dropWhile p l` are elements of `l`. -/
theorem mem_of_mem_dropWhile (p : Char → Bool) (l : List Char) :
    ∀ c ∈ l.dropWhile p, c ∈ l := by
  induction l with
  | nil => simp
  | cons a l ih =>
    intro c hc
    by_cases ha : p a = true
    · rw [List.dropWhile_cons_of_pos ha] at hc
      exact List.mem_cons_of_mem _ (ih c hc)
    · rw [List.dropWhile_cons_of_neg ha] at hc
      exact hc

/-- The list `dropWhile p l` is no longer than `l`. -/
theorem length_dropWhile_le_length (p : Char → Bool) (l : List Char) :
    (l.dropWhile p).length ≤ l.length := by
  induction l with
  | nil => simp
  | cons a l ih =>
    by_cases ha : p a = true
    · rw [List.dropWhile_cons_of_pos ha]
      exact Nat.le_succ_of_le ih
    · rw [List.dropWhile_cons_of_neg ha]

/-- The list `dropWhile p l` is empty or starts with an element that fails `p`. -/
theorem dropWhile_nil_or_head (p : Char → Bool) (l : List Char) :
    l.dropWhile p = [] ∨ ∃ c t, l.dropWhile p = c :: t ∧ p c = false := by
  induction l with
  | nil => simp
  | cons a l ih =>
    by_cases ha : p a = true
    · rw [List.dropWhile_cons_of_pos ha]
      exact ih
    · rw [List.dropWhile_cons_of_neg ha]
      exact Or.inr ⟨a, l, rfl, by simpa using ha⟩

/-- Leading blanks of a line are skipped. -/
theorem skipSpace_blanks (b t : List Char)
    (hb : ∀ c ∈ b, isSpace c = true ∧ c ≠ newline) : skipSpace (b ++ t) = skipSpace t := by
  induction b with
  | nil => rfl
  | cons a b ih =>
    have ha := hb a (by simp)
    have hrest : ∀ c ∈ b, isSpace c = true ∧ c ≠ newline := fun c hc => hb c (by simp [hc])
    simp [skipSpace, ha.1, ha.2, ih hrest]

/-- A word followed by white space (or by the end of input) is read whole. -/
theorem token_word (w t : List Char) (hw : ∀ c ∈ w, isSpace c = false)
    (ht : t = [] ∨ ∃ c u, t = c :: u ∧ isSpace c = true) : token (w ++ t) = (w, t) := by
  induction w with
  | nil =>
    rcases ht with h | ⟨c, u, h, hc⟩
    · rw [h]; rfl
    · rw [h]; simp [token, hc]
  | cons a w ih =>
    have ha := hw a (by simp)
    have hrest : ∀ c ∈ w, isSpace c = false := fun c hc => hw c (by simp [hc])
    simp [token, ha, ih hrest]

/-- Trailing blanks and the newline behind them are consumed without error. -/
theorem checkNewline_blanks (b t : List Char)
    (hb : ∀ c ∈ b, isSpace c = true ∧ c ≠ newline) :
    checkNewline (b ++ newline :: t) = (none, t) := by
  induction b with
  | nil => simp [checkNewline]
  | cons a b ih =>
    have ha := hb a (by simp)
    have hrest : ∀ c ∈ b, isSpace c = true ∧ c ≠ newline := fun c hc => hb c (by simp [hc])
    simp [checkNewline, ha.1, ha.2, ih hrest]

/-- Blanks followed by a further word: the first rune of that word is consumed
and reported as `expected newline`. -/
theorem checkNewline_word (b : List Char) (c : Char) (u : List Char)
    (hb : ∀ x ∈ b, isSpace x = true ∧ x ≠ newline) (hc : isSpace c = false) :
    checkNewline (b ++ c :: u) = (some (.plain "expected newline"), u) := by
  have hne : c ≠ newline := by
    intro h
    rw [h, isSpace_newline] at hc
    exact Bool.noConfusion hc
  induction b with
  | nil => simp [checkNewline, hc, hne]
  | cons a b ih =>
    have ha := hb a (by simp)
    have hrest : ∀ x ∈ b, isSpace x = true ∧ x ≠ newline := fun x hx => hb x (by simp [hx])
    simp [checkNewline, ha.1, ha.2, ih hrest]

/-- One `Scanln` on blanks followed by a newline: nothing is stored. -/
theorem Scanln_blank (signal : String) (lead t : List Char)
    (hlead : ∀ c ∈ lead, isSpace c = true ∧ c ≠ newline) :
    Scanln signal (lead ++ newline :: t) =
      { value := signal, n := 0, err := some (.plain "unexpected newline"), rest := t } := by
  unfold Scanln
  rw [skipSpace_blanks lead _ hlead]
  simp [skipSpace]

/-- One `Scanln` on blanks followed by a word and white space: the word is
stored, then the end of the line is checked on what follows the word. -/
theorem Scanln_word (signal : String) (lead : List Char) (a : Char) (w rest : List Char)
    (hlead : ∀ c ∈ lead, isSpace c = true ∧ c ≠ newline)
    (hword : ∀ c ∈ a :: w, isSpace c = false)
    (hrest : rest = [] ∨ ∃ c u, rest = c :: u ∧ isSpace c = true) :
    Scanln signal (lead ++ (a :: w ++ rest)) =
      { value := String.mk (a :: w), n := 1, err := (checkNewline rest).1
        rest := (checkNewline rest).2 } := by
  have ha : isSpace a = false := hword a (by simp)
  have hne : a ≠ newline := by
    intro h
    rw [h, isSpace_newline] at ha
    exact Bool.noConfusion ha
  have hsk : skipSpace (a :: w ++ rest) = (none, a :: (w ++ rest)) := by
    simp [skipSpace, ha, hne]
  have htok : token (a :: (w ++ rest)) = (a :: w, rest) := token_word (a :: w) rest hword hrest
  unfold Scanln
  rw [skipSpace_blanks lead _ hlead, hsk]
  simp only [htok]

/-- One `Scanln` on a line, told by the line's parts: a blank line stores
nothing and is consumed; a line of one word stores the word and is consumed; on
a line of several words the first word is stored, the first rune of the second
word is consumed with the error `expected newline`, and the rest of the line
stays unread. -/
theorem Scanln_line (signal : String) (l t : List Char) (hl : isLine l = true) :
    (firstWord l = [] →
      Scanln signal (l ++ newline :: t) =
        { value := signal, n := 0, err := some (.plain "unexpected newline"), rest := t }) ∧
    (firstWord l ≠ [] → afterFirstWord l = [] →
      Scanln signal (l ++ newline :: t) =
        { value := String.mk (firstWord l), n := 1, err := none, rest := t }) ∧
    (firstWord l ≠ [] → ∀ c u, afterFirstWord l = c :: u →
      Scanln signal (l ++ newline :: t) =
        { value := String.mk (firstWord l), n := 1, err := some (.plain "expected newline")
          rest := u ++ newline :: t }) := by
  have hline : ∀ c ∈ l, c ≠ newline := by
    intro c hc
    have := List.all_eq_true.mp hl c hc
    simpa using this
  have hlead : ∀ c ∈ l.takeWhile isSpace, isSpace c = true ∧ c ≠ newline := fun c hc =>
    ⟨mem_takeWhile_holds isSpace l c hc, hline c (mem_of_mem_takeWhile isSpace l c hc)⟩
  have hword : ∀ c ∈ firstWord l, isSpace c = false := by
    intro c hc
    have := mem_takeWhile_holds (fun c => !isSpace c) (l.dropWhile isSpace) c hc
    simpa using this
  generalize hafter : (l.dropWhile isSpace).dropWhile (fun c => !isSpace c) = after
  have hmem : ∀ c ∈ after, c ∈ l := by
    intro c hc
    rw [← hafter] at hc
    exact mem_of_mem_dropWhile _ _ c (mem_of_mem_dropWhile _ _ c hc)
  have hempty : firstWord l = [] → after = [] := by
    intro h
    rcases dropWhile_nil_or_head isSpace l with hd | ⟨c, u, hd, hc⟩
    · rw [← hafter, hd]; rfl
    · unfold firstWord at h
      rw [hd] at h
      simp [List.takeWhile, hc] at h
  have hhead : after = [] ∨ ∃ c u, after = c :: u ∧ isSpace c = true := by
    rcases dropWhile_nil_or_head (fun c => !isSpace c) (l.dropWhile isSpace) with h | ⟨c, u, h, hc⟩
    · exact Or.inl (by rw [← hafter]; exact h)
    · exact Or.inr ⟨c, u, by rw [← hafter]; exact h, by simpa using hc⟩
  have hrest : ∀ t, after ++ newline :: t = [] ∨
      ∃ c u, after ++ newline :: t = c :: u ∧ isSpace c = true := by
    intro t
    rcases hhead with h | ⟨c, u, h, hc⟩
    · exact Or.inr ⟨newline, t, by simp [h], isSpace_newline⟩
    · exact Or.inr ⟨c, u ++ newline :: t, by simp [h], hc⟩
  have hsplit : l ++ newline :: t =
      l.takeWhile isSpace ++ (firstWord l ++ (after ++ newline :: t)) := by
    have h1 : l = l.takeWhile isSpace ++ (firstWord l ++ after) := by
      unfold firstWord
      rw [← hafter, List.takeWhile_append_dropWhile, List.takeWhile_append_dropWhile]
    conv_lhs => rw [h1]
    simp [List.append_assoc]
  have hparts : after = after.takeWhile isSpace ++ afterFirstWord l := by
    unfold afterFirstWord
    rw [hafter, List.takeWhile_append_dropWhile]
  have hblanks : ∀ c ∈ after.takeWhile isSpace, isSpace c = true ∧ c ≠ newline := fun c hc =>
    ⟨mem_takeWhile_holds isSpace after c hc, hline c (hmem c (mem_of_mem_takeWhile _ _ c hc))⟩
  refine ⟨?_, ?_, ?_⟩
  · intro hfw
    rw [hsplit, hfw, hempty hfw]
    exact Scanln_blank signal _ t hlead
  · intro hfw hnone
    obtain ⟨a, w, haw⟩ : ∃ a w, firstWord l = a :: w := by
      cases h : firstWord l with
      | nil => exact absurd h hfw
      | cons a w => exact ⟨a, w, rfl⟩
    rw [hsplit, haw, Scanln_word signal _ a w _ hlead (by rw [← haw]; exact hword) (hrest t)]
    have hb : after = after.takeWhile isSpace := by
      conv_lhs => rw [hparts, hnone]
      simp
    rw [hb, checkNewline_blanks _ t hblanks]
  · intro hfw c u hcu
    obtain ⟨a, w, haw⟩ : ∃ a w, firstWord l = a :: w := by
      cases h : firstWord l with
      | nil => exact absurd h hfw
      | cons a w => exact ⟨a, w, rfl⟩
    have hc : isSpace c = false := by
      rcases dropWhile_nil_or_head isSpace after with h | ⟨c2, u2, h, hc2⟩
      · unfold afterFirstWord at hcu
        rw [hafter, h] at hcu
        exact absurd hcu (by simp)
      · unfold afterFirstWord at hcu
        rw [hafter, h] at hcu
        have : c2 = c := (List.cons.inj hcu).1
        rw [← this]
        exact hc2
    rw [hsplit, haw, Scanln_word signal _ a w _ hlead (by rw [← haw]; exact hword) (hrest t)]
    have hb : after ++ newline :: t = after.takeWhile isSpace ++ c :: (u ++ newline :: t) := by
      conv_lhs => rw [hparts, hcu]
      simp [List.append_assoc]
    rw [hb, checkNewline_word _ c _ hblanks hc]

/-- What is left of a line behind the first rune of its second word is a
shorter line. -/
theorem afterFirstWord_left (l : List Char) (c : Char) (u : List Char)
    (hl : isLine l = true) (hcu : afterFirstWord l = c :: u) :
    u.length < l.length ∧ isLine u = true := by
  have hlen : (afterFirstWord l).length ≤ l.length := by
    unfold afterFirstWord
    exact Nat.le_trans (length_dropWhile_le_length _ _)
      (Nat.le_trans (length_dropWhile_le_length _ _) (length_dropWhile_le_length _ _))
  have hmem : ∀ x ∈ afterFirstWord l, x ∈ l := by
    intro x hx
    unfold afterFirstWord at hx
    exact mem_of_mem_dropWhile _ _ x
      (mem_of_mem_dropWhile _ _ x (mem_of_mem_dropWhile _ _ x hx))
  rw [hcu] at hlen hmem
  constructor
  · simp at hlen
    omega
  · apply List.all_eq_true.mpr
    intro x hx
    exact List.all_eq_true.mp hl x (hmem x (by simp [hx]))

/-- One iteration of the stop listener that does not store `q`. -/
theorem stopListenerFrom_step (done fuel : Nat) (signal : String) (input : List Char)
    (h : (Scanln signal input).value ≠ "q") :
    stopListenerFrom done (fuel + 1) signal input =
      stopListenerFrom (done + 1) fuel (Scanln signal input).value (Scanln signal input).rest := by
  simp [stopListenerFrom, h]

/-- One iteration of the stop listener that stores `q`. -/
theorem stopListenerFrom_stop (done fuel : Nat) (signal : String) (input : List Char)
    (h : (Scanln signal input).value = "q") :
    stopListenerFrom done (fuel + 1) signal input =
      .signalled (done + 1) (Scanln signal input).rest := by
  simp [stopListenerFrom, h]

/-- At the end of input every `Scanln` fails and leaves `signal` as it is: the
stop listener never signals. -/
theorem stopListenerFrom_eof (done fuel : Nat) (signal : String) (hsig : signal ≠ "q") :
    stopListenerFrom done fuel signal [] = .waiting := by
  induction fuel generalizing done with
  | zero => rfl
  | succ n ih => simp [stopListenerFrom, Scanln, skipSpace, hsig, ih]

/-- The first call that stores `q` comes after the calls already made. -/
theorem firstQ_gt (os : List (Option (List Char))) (done k : Nat)
    (h : firstQ done os = some k) : done < k := by
  induction os generalizing done with
  | nil => simp [firstQ] at h
  | cons o os ih =>
    unfold firstQ at h
    split at h
    · have : done + 1 = k := Option.some.inj h
      omega
    · have := ih (done + 1) h
      omega

/-- The first call that stores `q` among the calls of two runs in sequence. -/
theorem firstQ_append (os ps : List (Option (List Char))) (done : Nat) :
    firstQ done (os ++ ps) =
      match firstQ done os with
      | some k => some k
      | none => firstQ (done + os.length) ps := by
  induction os generalizing done with
  | nil => simp [firstQ]
  | cons o os ih =>
    by_cases ho : o = some ['q']
    · simp [firstQ, ho]
    · have harith : done + 1 + os.length = done + (os.length + 1) := by omega
      have hstep : firstQ done (o :: (os ++ ps)) = firstQ (done + 1) (os ++ ps) := by
        simp [firstQ, ho]
      have hhead : firstQ done (o :: os) = firstQ (done + 1) os := by
        simp [firstQ, ho]
      rw [List.cons_append, hstep, hhead, ih (done + 1), List.length_cons, harith]

/-- The stop listener on one line followed by further input: it signals at the
first call that stores `q`, if the line has one and the fuel reaches it;
otherwise it goes on behind the line with the calls the line took. -/
theorem stopListenerFrom_line (n : Nat) :
    ∀ (l : List Char), l.length < n → isLine l = true →
    ∀ (signal : String), signal ≠ "q" → ∀ (done fuel : Nat) (t : List Char),
      (∀ k, firstQ done (lineScansAux n l) = some k →
        (stopListenerFrom done fuel signal (l ++ newline :: t)).reads =
          if k ≤ done + fuel then some k else none) ∧
      (firstQ done (lineScansAux n l) = none →
        ∃ s2, s2 ≠ "q" ∧ stopListenerFrom done fuel signal (l ++ newline :: t) =
          stopListenerFrom (done + (lineScansAux n l).length)
            (fuel - (lineScansAux n l).length) s2 t) := by
  induction n with
  | zero =>
    intro l hlen
    exact absurd hlen (Nat.not_lt_zero _)
  | succ n ih =>
    intro l hlen hl signal hsig done fuel t
    obtain ⟨hblank, hone, hmore⟩ := Scanln_line signal l t hl
    by_cases hfw : firstWord l = []
    · -- a blank line: one call, nothing stored
      have hos : lineScansAux (n + 1) l = [none] := by simp [lineScansAux, hfw]
      rw [hos]
      refine ⟨fun k hk => by simp [firstQ] at hk, fun _ => ⟨signal, hsig, ?_⟩⟩
      cases fuel with
      | zero => rfl
      | succ f =>
        have hv : (Scanln signal (l ++ newline :: t)).value ≠ "q" := by
          rw [hblank hfw]; exact hsig
        rw [stopListenerFrom_step done f signal _ hv, hblank hfw]
        rfl
    · by_cases hq : firstWord l = ['q']
      · -- the call stores `q`
        have hv : (Scanln signal (l ++ newline :: t)).value = "q" := by
          cases hafter : afterFirstWord l with
          | nil => rw [hone hfw hafter, hq]
          | cons c u => rw [hmore hfw c u hafter, hq]
        have hos : firstQ done (lineScansAux (n + 1) l) = some (done + 1) := by
          cases hafter : afterFirstWord l with
          | nil => simp [lineScansAux, hafter, hq, firstQ]
          | cons c u => simp [lineScansAux, hafter, hq, firstQ]
        rw [hos]
        refine ⟨fun k hk => ?_, fun h => by simp at h⟩
        have hk2 : done + 1 = k := Option.some.inj hk
        subst hk2
        cases fuel with
        | zero => simp [stopListenerFrom, StopRun.reads]
        | succ f =>
          rw [stopListenerFrom_stop done f signal _ hv]
          simp [StopRun.reads]
      · -- the call stores a word other than `q`
        have hmk : String.mk (firstWord l) ≠ "q" := fun h => hq ((mk_eq_q_iff _).mp h)
        cases hafter : afterFirstWord l with
        | nil =>
          have hos : lineScansAux (n + 1) l = [some (firstWord l)] := by
            simp [lineScansAux, hfw, hafter]
          have hfq : firstQ done [some (firstWord l)] = none := by simp [firstQ, hq]
          rw [hos]
          refine ⟨fun k hk => by rw [hfq] at hk; simp at hk,
            fun _ => ⟨String.mk (firstWord l), hmk, ?_⟩⟩
          cases fuel with
          | zero => rfl
          | succ f =>
            have hv : (Scanln signal (l ++ newline :: t)).value ≠ "q" := by
              rw [hone hfw hafter]; exact hmk
            rw [stopListenerFrom_step done f signal _ hv, hone hfw hafter]
            rfl
        | cons c u =>
          obtain ⟨hulen, hul⟩ := afterFirstWord_left l c u hl hafter
          have hun : u.length < n := by omega
          have hos : lineScansAux (n + 1) l = some (firstWord l) :: lineScansAux n u := by
            simp [lineScansAux, hfw, hafter]
          have hfq : firstQ done (some (firstWord l) :: lineScansAux n u) =
              firstQ (done + 1) (lineScansAux n u) := by
            simp [firstQ, hq]
          rw [hos, hfq]
          cases fuel with
          | zero =>
            refine ⟨fun k hk => ?_, fun _ => ⟨signal, hsig, ?_⟩⟩
            · have := firstQ_gt _ _ _ hk
              have hno : ¬ k ≤ done := by omega
              simp [stopListenerFrom, StopRun.reads, hno]
            · simp [stopListenerFrom]
          | succ f =>
            have hv : (Scanln signal (l ++ newline :: t)).value ≠ "q" := by
              rw [hmore hfw c u hafter]; exact hmk
            rw [stopListenerFrom_step done f signal _ hv, hmore hfw c u hafter]
            obtain ⟨ha, hb⟩ := ih u hun hul (String.mk (firstWord l)) hmk (done + 1) f t
            refine ⟨fun k hk => ?_, fun hnone => ?_⟩
            · have := ha k hk
              have harith : done + 1 + f = done + (f + 1) := by omega
              rw [harith] at this
              exact this
            · obtain ⟨s2, hs2, hrun⟩ := hb hnone
              refine ⟨s2, hs2, ?_⟩
              have h1 : done + (some (firstWord l) :: lineScansAux n u).length =
                  done + 1 + (lineScansAux n u).length := by
                simp only [List.length_cons]; omega
              have h2 : f + 1 - (some (firstWord l) :: lineScansAux n u).length =
                  f - (lineScansAux n u).length := by
                simp only [List.length_cons]; omega
              rw [h1, h2]
              exact hrun

/-- The stop listener on complete lines followed by further input: it signals
at the first call that stores `q`, if the lines have one and the fuel reaches
it; otherwise it goes on behind the lines with the calls they took. -/
theorem stopListenerFrom_lines (ls : List (List Char)) (hls : ∀ l ∈ ls, isLine l = true) :
    ∀ (signal : String), signal ≠ "q" → ∀ (done fuel : Nat) (t : List Char),
      (∀ k, firstQ done (scansOf ls) = some k →
        (stopListenerFrom done fuel signal (stdinOf ls ++ t)).reads =
          if k ≤ done + fuel then some k else none) ∧
      (firstQ done (scansOf ls) = none →
        ∃ s2, s2 ≠ "q" ∧ stopListenerFrom done fuel signal (stdinOf ls ++ t) =
          stopListenerFrom (done + (scansOf ls).length) (fuel - (scansOf ls).length) s2 t) := by
  induction ls with
  | nil =>
    intro signal hsig done fuel t
    refine ⟨fun k hk => by simp [scansOf, firstQ] at hk, fun _ => ⟨signal, hsig, ?_⟩⟩
    simp [scansOf, stdinOf]
  | cons l ls ih =>
    intro signal hsig done fuel t
    have hl : isLine l = true := hls l (by simp)
    have hrest : ∀ m ∈ ls, isLine m = true := fun m hm => hls m (by simp [hm])
    have hin : stdinOf (l :: ls) ++ t = l ++ newline :: (stdinOf ls ++ t) := by
      simp [stdinOf]
    obtain ⟨ha, hb⟩ := stopListenerFrom_line (l.length + 1) l (Nat.lt_succ_self _) hl signal hsig
      done fuel (stdinOf ls ++ t)
    have happ := firstQ_append (lineScans l) (scansOf ls) done
    rw [hin]
    simp only [scansOf]
    cases hfirst : firstQ done (lineScans l) with
    | some k1 =>
      rw [hfirst] at happ
      rw [happ]
      refine ⟨fun k hk => ?_, fun h => by simp at h⟩
      have hk1 : k1 = k := Option.some.inj hk
      subst hk1
      exact ha k1 hfirst
    | none =>
      rw [hfirst] at happ
      rw [happ]
      obtain ⟨s2, hs2, hrun⟩ := hb hfirst
      have hrun2 : stopListenerFrom done fuel signal (l ++ newline :: (stdinOf ls ++ t)) =
          stopListenerFrom (done + (lineScans l).length) (fuel - (lineScans l).length) s2
            (stdinOf ls ++ t) := hrun
      obtain ⟨hc, hd⟩ := ih hrest s2 hs2 (done + (lineScans l).length)
        (fuel - (lineScans l).length) t
      rw [hrun2]
      refine ⟨fun k hk => ?_, fun hnone => ?_⟩
      · have hgt := firstQ_gt _ _ _ hk
        rw [hc k hk]
        by_cases hle : k ≤ done + fuel
        · have : k ≤ done + (lineScans l).length + (fuel - (lineScans l).length) := by omega
          simp [hle, this]
        · have : ¬ k ≤ done + (lineScans l).length + (fuel - (lineScans l).length) := by omega
          simp [hle, this]
      · obtain ⟨s3, hs3, hrun3⟩ := hd hnone
        refine ⟨s3, hs3, ?_⟩
        rw [hrun3, List.length_append]
        have h1 : done + (lineScans l).length + (scansOf ls).length =
            done + ((lineScans l).length + (scansOf ls).length) := by omega
        have h2 : fuel - (lineScans l).length - (scansOf ls).length =
            fuel - ((lineScans l).length + (scansOf ls).length) := by omega
        rw [h1, h2]

/-- A line whose first word is `q` has `q` stored by the first call that reads
it. -/
theorem lineScans_first_word_q (l : List Char) (hq : firstWord l = ['q']) :
    (lineScans l).head? = some (some ['q']) := by
  cases hafter : afterFirstWord l <;> simp [lineScans, lineScansAux, hq, hafter]

/-- A blank line and a line of one word take exactly one call. -/
theorem lineScans_at_most_one_word (l : List Char) (hafter : afterFirstWord l = []) :
    lineScans l = [if firstWord l = [] then none else some (firstWord l)] := by
  by_cases hfw : firstWord l = [] <;> simp [lineScans, lineScansAux, hfw, hafter]

/-- C8, as stated, fails: the lines `q now`, `a qq` and `hello wq` are not the
line `q`, yet the stop listener signals upon reading each of them.  `Scanln`
stores the word `q` of `q now` before it reports the rest of the line as an
error; after the first word of `a qq` and of `hello wq` it consumes one rune of
the second word and leaves `q` to be read by the next call; the listener drops
the error each time. -/
theorem stopListener_signals_on_q_followed_by_words :
    isLine "q now".toList = true ∧ "q now".toList ≠ "q".toList ∧
      Scanln "" (stdinOf ["q now".toList]) =
        { value := "q", n := 1, err := some (.plain "expected newline")
          rest := ['o', 'w', newline] } ∧
      stopListener 1 (stdinOf ["q now".toList]) = .signalled 1 ['o', 'w', newline] ∧
      isLine "a qq".toList = true ∧ "a qq".toList ≠ "q".toList ∧
      stopListener 2 (stdinOf ["a qq".toList]) = .signalled 2 [] ∧
      isLine "hello wq".toList = true ∧ "hello wq".toList ≠ "q".toList ∧
      stopListener 2 (stdinOf ["hello wq".toList]) = .signalled 2 [] := by
  decide

/-- C8, amended: on any complete lines of local input the stop listener signals
at most once, exactly upon the first `Scanln` call that stores the
case-sensitive word `q` (whatever input follows those lines), and it never
signals when the input ends without such a call.  The words stored while a line
is read are told by `lineScans`: a blank line stores nothing; otherwise the
line's first word is stored and, when further words follow, the first rune of
the second word is lost and the next call goes on with what is left of the line.
In particular a line whose first word is `q` makes its first call store `q`,
with or without further words; a blank line or a line of one word takes one
call. -/
theorem stopListener_signals_on_first_scanned_q (ls : List (List Char)) (t : List Char)
    (fuel : Nat) (hls : ∀ l ∈ ls, isLine l = true) :
    (∀ k, firstQ 0 (scansOf ls) = some k →
      (stopListener fuel (stdinOf ls ++ t)).reads = if k ≤ fuel then some k else none) ∧
    (firstQ 0 (scansOf ls) = none → stopListener fuel (stdinOf ls) = .waiting) ∧
    (∀ l, firstWord l = ['q'] → (lineScans l).head? = some (some ['q'])) ∧
    (∀ l, afterFirstWord l = [] →
      lineScans l = [if firstWord l = [] then none else some (firstWord l)]) := by
  refine ⟨fun k hk => ?_, fun hnone => ?_, lineScans_first_word_q, lineScans_at_most_one_word⟩
  · have := (stopListenerFrom_lines ls hls "" (by decide) 0 fuel t).1 k hk
    simpa [stopListener] using this
  · obtain ⟨s2, hs2, hrun⟩ := (stopListenerFrom_lines ls hls "" (by decide) 0 fuel []).2 hnone
    have hrun2 : stopListener fuel (stdinOf ls) =
        stopListenerFrom (0 + (scansOf ls).length) (fuel - (scansOf ls).length) s2 [] := by
      simpa [stopListener] using hrun
    rw [hrun2]
    exact stopListenerFrom_eof _ _ s2 hs2

/-- An instance: the lines `Q`, `quit`, an empty line and `hello world` are
discarded (five calls), the line `a qq` signals at the seventh call, and
without it nothing signals. -/
theorem stopListener_signals_on_first_scanned_q_witness :
    (stopListener 9 (stdinOf ["Q".toList, "quit".toList, [], "hello world".toList,
        "a qq".toList] ++ "later".toList)).reads = some 7 ∧
      stopListener 9 (stdinOf ["Q".toList, "quit".toList, [], "hello world".toList]) =
        .waiting := by
  constructor
  · have h := (stopListener_signals_on_first_scanned_q
      ["Q".toList, "quit".toList, [], "hello world".toList, "a qq".toList] "later".toList 9
      (by decide)).1 7 (by decide)
    simpa using h
  · exact (stopListener_signals_on_first_scanned_q
      ["Q".toList, "quit".toList, [], "hello world".toList] [] 9 (by decide)).2.1 (by decide)

end StopListener

end DidAlgo
